import Mathlib

/-!
Verification development for the w4h ETL container (src/main.py and
src/utils.py).

Modelling conventions:
* timestamps are integers (nanoseconds since the epoch, the unit of
  pandas Timestamps); pandas floor("d") is integer floor-division by the
  nanoseconds of one day;
* the meteorological floating-point values are modelled as rationals
  (for the quantised encoder) or reals (for the wind-speed hypotenuse);
* numpy's rounding (round-half-to-even) is modelled explicitly;
* a forecast grid, viewed along its time axis, is an association list of
  (timestamp, value) pairs whose timestamps are strictly increasing;
* the document store and the network are abstracted by explicit state
  passing: a commit function takes a store state and a chunk of
  operations and returns the new state together with a success flag.
-/

/-- numpy round-half-to-even (the semantics of ndarray.round()) on rationals. -/
def roundHalfEven (q : ℚ) : ℤ :=
  if q - ⌊q⌋ < 1 / 2 then ⌊q⌋
  else if 1 / 2 < q - ⌊q⌋ then ⌊q⌋ + 1
  else if ⌊q⌋ % 2 = 0 then ⌊q⌋ else ⌊q⌋ + 1

lemma roundHalfEven_intCast (n : ℤ) : roundHalfEven (n : ℚ) = n := by
  norm_num [roundHalfEven]

/-- Encoder (src/main.py lines 255-276): quantise utci and wbgt to tenths
shifted by +100, then pack the two quantised values and the hour offset
into one integer as (t * 2000 + w) * 200 + hourOffset. -/
def encode (utci wbgt : ℚ) (hourOffset : ℤ) : ℤ :=
  (roundHalfEven ((utci + 100) * 10) * 2000 + roundHalfEven ((wbgt + 100) * 10)) * 200
    + hourOffset

/-- Decoder: the exact inverse described by the spec, successive integer
division/modulo by 200 and then 2000, mapped back to degrees. -/
def decode (code : ℤ) : ℚ × ℚ × ℤ :=
  (((code / 200 / 2000 : ℤ) : ℚ) / 10 - 100,
   ((code / 200 % 2000 : ℤ) : ℚ) / 10 - 100,
   code % 200)

/-- C1: for every utci and wbgt that is a multiple of 0.1 in
[-100.0, 99.9] (written a/10, b/10 with integer a, b in [-1000, 999])
and every integer hourOffset in [0, 199], decoding the encoded integer
by successive integer division/modulo by 200 and then 2000 recovers
exactly the two rounded temperatures and the hour offset. -/
theorem encode_decode_roundtrip (a b h : ℤ)
    (ha : -1000 ≤ a) (ha' : a ≤ 999) (hb : -1000 ≤ b) (hb' : b ≤ 999)
    (hh : 0 ≤ h) (hh' : h ≤ 199) :
    decode (encode ((a : ℚ) / 10) ((b : ℚ) / 10) h) = ((a : ℚ) / 10, (b : ℚ) / 10, h) := by
  have e1 : ((a : ℚ) / 10 + 100) * 10 = ((a + 1000 : ℤ) : ℚ) := by push_cast; ring
  have e2 : ((b : ℚ) / 10 + 100) * 10 = ((b + 1000 : ℤ) : ℚ) := by push_cast; ring
  have hc : encode ((a : ℚ) / 10) ((b : ℚ) / 10) h
      = ((a + 1000) * 2000 + (b + 1000)) * 200 + h := by
    rw [encode, e1, e2, roundHalfEven_intCast, roundHalfEven_intCast]
  have d1 : (((a + 1000) * 2000 + (b + 1000)) * 200 + h) / 200 / 2000 = a + 1000 := by
    omega
  have d2 : (((a + 1000) * 2000 + (b + 1000)) * 200 + h) / 200 % 2000 = b + 1000 := by
    omega
  have d3 : (((a + 1000) * 2000 + (b + 1000)) * 200 + h) % 200 = h := by omega
  rw [decode, hc, d1, d2, d3]
  simp only [Prod.mk.injEq]
  refine ⟨by push_cast; ring, by push_cast; ring, trivial⟩

/-- Witness for C1 at utci = 30.5, wbgt = -2.7, hourOffset = 7. -/
theorem encode_decode_roundtrip_witness :
    decode (encode ((305 : ℚ) / 10) ((-27 : ℚ) / 10) 7)
      = ((305 : ℚ) / 10, (-27 : ℚ) / 10, 7) :=
  encode_decode_roundtrip 305 (-27) 7 (by decide) (by decide) (by decide) (by decide)
    (by decide) (by decide)

/-- ChartShifter (src/main.py line 363): longitude divided by 15, rounded
(numpy round-half-to-even), truncated to int. -/
def hour_angle (lon : ℚ) : ℤ := roundHalfEven (lon / 15)

/-- src/main.py line 364: hour angles above 12 are wrapped down by 24. -/
def utc_hour_angle (lon : ℚ) : ℤ :=
  if hour_angle lon > 12 then hour_angle lon - 24 else hour_angle lon

/-- C2 counterexample: the claim "longitude 180 maps to bucket -12,
longitude 0 to bucket 0, longitude 190 to bucket -12" is false: the code
maps longitude 180 to 12 (12 is not wrapped, since the wrap condition is
strictly greater than 12) and longitude 190 to -11 (round(190/15) = 13,
13 - 24 = -11). -/
theorem hour_angle_bucket_claim_false :
    ¬ (utc_hour_angle 180 = -12 ∧ utc_hour_angle 0 = 0 ∧ utc_hour_angle 190 = -12) := by
  have h : utc_hour_angle 180 = 12 := by
    norm_num [utc_hour_angle, hour_angle, roundHalfEven]
  intro hcl
  rw [h] at hcl
  exact absurd hcl.1 (by decide)

/-- C2 (amended): the hour-angle bucket function maps longitude 180 to
bucket 12, longitude 0 to bucket 0, and longitude 190 to bucket -11. -/
theorem hour_angle_bucket_values :
    utc_hour_angle 180 = 12 ∧ utc_hour_angle 0 = 0 ∧ utc_hour_angle 190 = -11 := by
  refine ⟨?_, ?_, ?_⟩ <;> norm_num [utc_hour_angle, hour_angle, roundHalfEven]

/-- Nanoseconds in one hour (the unit of pandas Timestamps). -/
def nsPerHour : ℤ := 3600 * 1000000000

/-- Nanoseconds in one day. -/
def nsPerDay : ℤ := 24 * nsPerHour

/-- pandas Timestamp.floor("d"): round a timestamp down to midnight. -/
def floorDay (t : ℤ) : ℤ := nsPerDay * (t / nsPerDay)

/-- src/main.py line 221: midnight before the first timestamp of the new
grid, the earliest global chart a new grid can update. -/
def earliest_global_chart_to_update (t0 : ℤ) : ℤ := floorDay t0

/-- src/main.py lines 234-236: earliest data needed for charting, 12
hours before that midnight (hour-angle shifting moves data up to 12
hours forward). -/
def earliest_global_chart_data (t0 : ℤ) : ℤ :=
  earliest_global_chart_to_update t0 - 12 * nsPerHour

/-- src/main.py lines 238-240: start of the local day anywhere on earth,
the midnight before (now - 25 hours). -/
def earliest_forecast_time (now : ℤ) : ℤ := floorDay (now - 25 * nsPerHour)

/-- src/main.py lines 241-243: the retention cutoff passed to the merge. -/
def earliest_necessary_data (now t0 : ℤ) : ℤ :=
  min (earliest_forecast_time now) (earliest_global_chart_data t0)

/-- C4: for every wall-clock time now and every first timestamp t0 of the
new grid, the retention cutoff passed to the merge equals
min(floor_to_day(now - 25h), floor_to_day(t0) - 12h). -/
theorem retention_cutoff_formula (now t0 : ℤ) :
    earliest_necessary_data now t0
      = min (floorDay (now - 25 * nsPerHour)) (floorDay t0 - 12 * nsPerHour) := rfl

/-- C5: for every wall-clock time now and every first timestamp of the
new grid, the RetentionPlanner cutoff is at most the new grid's first
timestamp. -/
theorem retention_cutoff_le_first_timestamp (now t0 : ℤ) :
    earliest_necessary_data now t0 ≤ t0 := by
  have h : earliest_necessary_data now t0 ≤ floorDay t0 - 12 * nsPerHour :=
    min_le_right _ _
  have hfloor : floorDay t0 ≤ t0 := by
    have hnz : nsPerDay ≠ 0 := by norm_num [nsPerDay, nsPerHour]
    have hmod : 0 ≤ t0 % nsPerDay := Int.emod_nonneg t0 hnz
    have hdef : t0 % nsPerDay = t0 - nsPerDay * (t0 / nsPerDay) := Int.emod_def t0 nsPerDay
    simp only [floorDay]
    omega
  have hpos : 0 < 12 * nsPerHour := by norm_num [nsPerHour]
  omega

/-- numpy hypot: the hypotenuse sqrt(x^2 + y^2). -/
noncomputable def np_hypot (x y : ℝ) : ℝ := Real.sqrt (x * x + y * y)

/-- src/main.py line 179: the scalar wind speed, computed as
np.hypot(ugrd10m, ugrd10m) - the u component is passed twice and the v
component is never used. -/
noncomputable def wind_speed (ugrd10m vgrd10m : ℝ) : ℝ := np_hypot ugrd10m ugrd10m

/-- C7: the scalar wind speed combines the same wind component with
itself, yielding abs(u) * sqrt 2; it does not depend on the v component;
and it differs from the hypotenuse of both components (at u = 0, v = 1). -/
theorem wind_speed_same_component :
    (∀ u v : ℝ, wind_speed u v = |u| * Real.sqrt 2)
    ∧ (∀ u v v' : ℝ, wind_speed u v = wind_speed u v')
    ∧ wind_speed 0 1 ≠ np_hypot 0 1 := by
  refine ⟨fun u v => ?_, fun u v v' => rfl, ?_⟩
  · rw [wind_speed, np_hypot, show u * u + u * u = 2 * (u * u) by ring,
      Real.sqrt_mul (by norm_num), Real.sqrt_mul_self_eq_abs, mul_comm]
  · norm_num [wind_speed, np_hypot]

/-- Sizes of the parts produced by np.array_split on a list of length l
split into n parts: the first l mod n parts get one extra element. -/
def arraySplitSizes (l n : ℕ) : List ℕ :=
  (List.range n).map (fun k => l / n + if k < l % n then 1 else 0)

/-- Cut a list into consecutive pieces of the given sizes. -/
def splitBySizes {α : Type} : List ℕ → List α → List (List α)
  | [], _ => []
  | sz :: rest, xs => xs.take sz :: splitBySizes rest (xs.drop sz)

/-- np.array_split(xs, n) (src/main.py line 315): n roughly-equal
consecutive parts. -/
def arraySplit {α : Type} (xs : List α) (n : ℕ) : List (List α) :=
  splitBySizes (arraySplitSizes xs.length n) xs

lemma sum_range_add_ite (m q r : ℕ) :
    ((List.range m).map (fun k => q + if k < r then 1 else 0)).sum = m * q + min r m := by
  induction m with
  | zero => simp
  | succ m ih =>
      rw [List.range_succ, List.map_append, List.sum_append, ih]
      simp only [List.map_cons, List.map_nil, List.sum_cons, List.sum_nil, Nat.succ_mul]
      by_cases h : m < r
      · simp only [if_pos h]
        omega
      · simp only [if_neg h]
        omega

lemma arraySplitSizes_sum (l n : ℕ) (hn : 1 ≤ n) : (arraySplitSizes l n).sum = l := by
  rw [arraySplitSizes, sum_range_add_ite]
  have := Nat.div_add_mod l n
  have : l % n < n := Nat.mod_lt l hn
  omega

lemma splitBySizes_flatten {α : Type} (szs : List ℕ) (xs : List α) :
    (splitBySizes szs xs).flatten = xs.take szs.sum := by
  induction szs generalizing xs with
  | nil => simp [splitBySizes]
  | cons sz rest ih =>
      simp only [splitBySizes, List.flatten_cons, ih, List.sum_cons, List.take_add]

lemma splitBySizes_length {α : Type} (szs : List ℕ) (xs : List α) :
    (splitBySizes szs xs).length = szs.length := by
  induction szs generalizing xs with
  | nil => rfl
  | cons sz rest ih => simp [splitBySizes, ih]

lemma splitBySizes_lengths {α : Type} (szs : List ℕ) (xs : List α)
    (h : szs.sum ≤ xs.length) :
    (splitBySizes szs xs).map List.length = szs := by
  induction szs generalizing xs with
  | nil => rfl
  | cons sz rest ih =>
      simp only [List.sum_cons] at h
      simp only [splitBySizes, List.map_cons, List.length_take]
      rw [show sz ⊓ xs.length = sz by omega,
        ih (xs.drop sz) (by rw [List.length_drop]; omega)]

/-- Result of one commit attempt: the document-store state together with
success (no exception) or failure (exception raised). -/
def uploadChunks {σ α : Type} (commit : σ → List α → σ × Bool) :
    σ → List (List α) → σ × Bool
  | s, [] => (s, true)
  | s, c :: cs =>
      match commit s c with
      | (s', true) => uploadChunks commit s' cs
      | (s', false) => (s', false)

/-- The candidate chunk counts of the escalating upload loop
(src/main.py line 312). -/
def chunkCounts : List ℕ := [12, 13, 15, 20, 30, 50, 100]

/-- The escalating upload loop (src/main.py lines 312-323): try each
chunk count in order; a fully successful attempt breaks out of the loop;
a failed attempt at count 100 re-raises (Except.error carries the state
at the raise); a failed attempt at any other count falls through to the
next count. -/
def uploadAttempts {σ α : Type} (commit : σ → List α → σ × Bool) (batch : List α) :
    List ℕ → σ → Except σ (σ × ℕ)
  | [], s => Except.ok (s, 0)
  | i :: rest, s =>
      match uploadChunks commit s (arraySplit batch i) with
      | (s', true) => Except.ok (s', i)
      | (s', false) =>
          if i = 100 then Except.error s' else uploadAttempts commit batch rest s'

/-- C3: the orchestrator walks the fixed, strictly increasing candidate
sequence [12, 13, 15, 20, 30, 50, 100] in order; a fully successful
attempt at any count ends escalation with that count; a failed attempt
at a count other than 100 retries the whole batch at the next count; a
failed attempt at count 100 propagates the error with no further
attempts; within one attempt the chunks are committed sequentially and
the first failing chunk abandons the rest; and splitting yields exactly
n consecutive parts whose lengths differ by at most one and whose
concatenation is the batch. -/
theorem upload_escalation_spec {σ α : Type} :
    chunkCounts = [12, 13, 15, 20, 30, 50, 100]
    ∧ List.Chain' (fun i j => i < j) chunkCounts
    ∧ (∀ (commit : σ → List α → σ × Bool) (batch : List α) (s s' : σ) (i : ℕ)
        (rest : List ℕ),
        uploadChunks commit s (arraySplit batch i) = (s', true) →
        uploadAttempts commit batch (i :: rest) s = Except.ok (s', i))
    ∧ (∀ (commit : σ → List α → σ × Bool) (batch : List α) (s s' : σ) (i : ℕ)
        (rest : List ℕ),
        i ≠ 100 → uploadChunks commit s (arraySplit batch i) = (s', false) →
        uploadAttempts commit batch (i :: rest) s = uploadAttempts commit batch rest s')
    ∧ (∀ (commit : σ → List α → σ × Bool) (batch : List α) (s s' : σ)
        (rest : List ℕ),
        uploadChunks commit s (arraySplit batch 100) = (s', false) →
        uploadAttempts commit batch (100 :: rest) s = Except.error s')
    ∧ (∀ (commit : σ → List α → σ × Bool) (s s' : σ) (c : List α) (cs : List (List α)),
        commit s c = (s', false) → uploadChunks commit s (c :: cs) = (s', false))
    ∧ (∀ (commit : σ → List α → σ × Bool) (s s' : σ) (c : List α) (cs : List (List α)),
        commit s c = (s', true) → uploadChunks commit s (c :: cs) = uploadChunks commit s' cs)
    ∧ (∀ (batch : List α) (n : ℕ), 1 ≤ n →
        (arraySplit batch n).flatten = batch
        ∧ (arraySplit batch n).length = n
        ∧ ∀ part ∈ arraySplit batch n,
            part.length = batch.length / n ∨ part.length = batch.length / n + 1) := by
  refine ⟨rfl, by norm_num [chunkCounts, List.chain'_cons], ?_, ?_, ?_, ?_, ?_, ?_⟩
  · intro commit batch s s' i rest h
    simp [uploadAttempts, h]
  · intro commit batch s s' i rest hi h
    simp [uploadAttempts, h, hi]
  · intro commit batch s s' rest h
    simp [uploadAttempts, h]
  · intro commit s s' c cs h
    simp [uploadChunks, h]
  · intro commit s s' c cs h
    simp [uploadChunks, h]
  · intro batch n hn
    have hsum : (arraySplitSizes batch.length n).sum = batch.length :=
      arraySplitSizes_sum _ _ hn
    refine ⟨?_, ?_, ?_⟩
    · rw [arraySplit, splitBySizes_flatten, hsum, List.take_length]
    · rw [arraySplit, splitBySizes_length, arraySplitSizes, List.length_map,
        List.length_range]
    · intro part hpart
      have hmem : part.length ∈ (arraySplit batch n).map List.length :=
        List.mem_map_of_mem List.length hpart
      rw [arraySplit, splitBySizes_lengths _ _ (le_of_eq hsum)] at hmem
      rw [arraySplitSizes] at hmem
      simp only [List.mem_map, List.mem_range] at hmem
      obtain ⟨k, -, hk⟩ := hmem
      by_cases hkr : k < batch.length % n
      · rw [if_pos hkr] at hk
        right
        omega
      · rw [if_neg hkr] at hk
        left
        omega

/-- Witness for C3: with a commit that always succeeds, the first
attempt (12 chunks of the batch [1, 2, 3]) succeeds and ends escalation. -/
theorem upload_escalation_spec_witness :
    uploadAttempts (fun (s : ℕ) (_ : List ℕ) => (s + 1, true)) [1, 2, 3]
      (12 :: [13, 15, 20, 30, 50, 100]) 0 = Except.ok (12, 12) :=
  (upload_escalation_spec (σ := ℕ) (α := ℕ)).2.2.1
    (fun (s : ℕ) (_ : List ℕ) => (s + 1, true)) [1, 2, 3] 0 12 12
    [13, 15, 20, 30, 50, 100] rfl

/-- The environment of one pipeline invocation, as seen by the update
gate (src/main.py lines 30-79): the optional DATA_SOURCE_URL override,
the result of scraping (none models the zero-dates/zero-times alert
path), the previously recorded source, and the isUpdating value returned
by each successive fetch of the status document (read 0 is the fetch in
the Database constructor). -/
structure GateEnv where
  dataSourceUrl : Option String
  scraped : Option String
  previousSource : String
  reads : ℕ → Bool

/-- How a run leaves the update gate. -/
inductive GateOutcome where
  | exitBusy
  | exitUpToDate
  | scrapeError
  | proceed (source : String)
  deriving DecidableEq

/-- The gate logic of main() (src/main.py lines 30-79), returning the
outcome together with the number of status fetches performed before it:
exit if the cached constructor fetch shows isUpdating; without an
override, scrape, exit if the source is unchanged, fetch the status a
second time and exit if it shows isUpdating, else proceed; with an
override, proceed immediately on the single constructor fetch. -/
def gateRun (env : GateEnv) : GateOutcome × ℕ :=
  if env.reads 0 then (GateOutcome.exitBusy, 1)
  else
    match env.dataSourceUrl with
    | none =>
        match env.scraped with
        | none => (GateOutcome.scrapeError, 1)
        | some src =>
            if src = env.previousSource then (GateOutcome.exitUpToDate, 1)
            else if env.reads 1 then (GateOutcome.exitBusy, 2)
            else (GateOutcome.proceed src, 2)
    | some url => (GateOutcome.proceed url, 1)

/-- C6 counterexample: the claim "in every run the transition to
Updating is guarded by two fresh status reads" is false: a run with an
explicit DATA_SOURCE_URL override proceeds after a single status read. -/
theorem gate_double_check_claim_false :
    ¬ (∀ (env : GateEnv) (src : String) (n : ℕ),
        gateRun env = (GateOutcome.proceed src, n) →
        n = 2 ∧ env.reads 0 = false ∧ env.reads 1 = false) := by
  intro hcl
  have h := hcl ⟨some "http://data/override", none, "prev", fun _ => false⟩
    "http://data/override" 1 rfl
  exact absurd h.1 (by decide)

/-- C6 (amended): the transition Idle to Updating occurs only when every
status read performed so far showed isUpdating = false; when no explicit
source override is configured, the status is read twice (once before the
expensive scraping work and again immediately before committing to the
scraped source); with an explicit DATA_SOURCE_URL override only the
single constructor read guards the transition. -/
theorem gate_double_check (env : GateEnv) (src : String) (n : ℕ)
    (h : gateRun env = (GateOutcome.proceed src, n)) :
    env.reads 0 = false
    ∧ (env.dataSourceUrl = none → n = 2 ∧ env.reads 1 = false)
    ∧ (∀ url, env.dataSourceUrl = some url → n = 1 ∧ src = url) := by
  rcases hds : env.dataSourceUrl with _ | url
  · rcases hs : env.scraped with _ | s
    · by_cases h0 : env.reads 0 <;> simp [gateRun, h0, hds, hs] at h
    · by_cases h0 : env.reads 0
      · simp [gateRun, h0, hds, hs] at h
      · by_cases heq : s = env.previousSource
        · simp [gateRun, h0, hds, hs, heq] at h
        · by_cases h1 : env.reads 1
          · simp [gateRun, h0, hds, hs, heq, h1] at h
          · simp [gateRun, h0, hds, hs, heq, h1] at h
            refine ⟨by simpa using h0, fun _ => ⟨h.2.symm, by simpa using h1⟩, ?_⟩
            intro url hurl
            exact absurd hurl (by simp)
  · by_cases h0 : env.reads 0
    · simp [gateRun, h0, hds] at h
    · simp [gateRun, h0, hds] at h
      refine ⟨by simpa using h0, ?_, ?_⟩
      · intro hnone
        exact absurd hnone (by simp)
      · intro url' hurl'
        obtain rfl : url = url' := by simpa using hurl'
        exact ⟨h.2.symm, h.1.symm⟩

/-- Witness for C6 at a scraping run whose two status reads both show
isUpdating = false. -/
theorem gate_double_check_witness :
    (GateEnv.mk none (some "http://data/new") "prev" (fun _ => false)).reads 0 = false
    ∧ ((GateEnv.mk none (some "http://data/new") "prev" (fun _ => false)).dataSourceUrl = none →
        2 = 2 ∧ (GateEnv.mk none (some "http://data/new") "prev" (fun _ => false)).reads 1 = false)
    ∧ (∀ url,
        (GateEnv.mk none (some "http://data/new") "prev" (fun _ => false)).dataSourceUrl = some url →
        2 = 1 ∧ "http://data/new" = url) :=
  gate_double_check (GateEnv.mk none (some "http://data/new") "prev" (fun _ => false))
    "http://data/new" 2 rfl

/-- The status document fields relevant to the upload stage
(src/utils.py lines 80-87, the singleton status record). -/
structure Status where
  isUpdating : Bool
  latestSuccessfulUpdateSource : String
  deriving DecidableEq

/-- The tail of the try block of main() after the upload batch is built
(src/main.py lines 312-339 and the finally block at line 448): run the
escalating chunked upload; if it raises, the exception propagates and
the finally block only resets isUpdating; if it succeeds,
latestSuccessfulUpdateSource is set to the new source, after which the
blob save and the charting run (their failures no longer touch that
field); the finally block always resets isUpdating. The Bool result is
true when the whole run completed without an exception. -/
def etl_upload_and_finalize {σ α : Type} (commit : σ → List α → σ × Bool) (s : σ)
    (uploads : List α) (blobOk chartsOk : Bool) (st : Status) (dataSource : String) :
    Status × Bool :=
  match uploadAttempts commit uploads chunkCounts s with
  | Except.error _ => ({ st with isUpdating := false }, false)
  | Except.ok _ =>
      ({ st with
          latestSuccessfulUpdateSource := dataSource,
          isUpdating := false },
        blobOk && chartsOk)

/-- C9: latestSuccessfulUpdateSource is set to the new source exactly
when the chunked upload succeeded: if the upload fails across all chunk
counts, the run ends with the field unchanged from its prior value,
while blob-save or charting failures after a successful upload still
leave it pointing at the new source. -/
theorem source_update_atomicity {σ α : Type}
    (commit : σ → List α → σ × Bool) (s : σ) (uploads : List α)
    (blobOk chartsOk : Bool) (st : Status) (dataSource : String) :
    (∀ s', uploadAttempts commit uploads chunkCounts s = Except.error s' →
        (etl_upload_and_finalize commit s uploads blobOk chartsOk st dataSource).1.latestSuccessfulUpdateSource
            = st.latestSuccessfulUpdateSource
          ∧ (etl_upload_and_finalize commit s uploads blobOk chartsOk st dataSource).2 = false)
    ∧ (∀ r, uploadAttempts commit uploads chunkCounts s = Except.ok r →
        (etl_upload_and_finalize commit s uploads blobOk chartsOk st dataSource).1.latestSuccessfulUpdateSource
            = dataSource)
    ∧ (∀ r, uploadAttempts commit uploads chunkCounts s = Except.ok r →
        (etl_upload_and_finalize commit s uploads blobOk chartsOk st dataSource).2 = (blobOk && chartsOk)) := by
  refine ⟨fun s' hs' => ?_, fun r hr => ?_, fun r hr => ?_⟩
  · rw [etl_upload_and_finalize, hs']
    exact ⟨rfl, rfl⟩
  · rw [etl_upload_and_finalize, hr]
  · rw [etl_upload_and_finalize, hr]

/-- Witness for C9: with a commit that always raises, the upload
exhausts every chunk count and the run ends with
latestSuccessfulUpdateSource still holding the prior source. -/
theorem source_update_atomicity_witness :
    (etl_upload_and_finalize (fun (s : ℕ) (_ : List ℕ) => (s, false)) 0 [0] true true
        (Status.mk false "http://data/prior") "http://data/new").1.latestSuccessfulUpdateSource
      = "http://data/prior" :=
  ((source_update_atomicity (fun (s : ℕ) (_ : List ℕ) => (s, false)) 0 [0] true true
      (Status.mk false "http://data/prior") "http://data/new").1 0 rfl).1

/-- A forecast grid seen along its time axis: an association list of
(timestamp, per-timestamp values). -/
abbrev TimesSorted {α : Type} (g : List (ℤ × α)) : Prop :=
  List.Pairwise (fun p q => p.1 < q.1) g

/-- xarray .sel(time=slice(cutoff, None)) (src/main.py lines 247-249):
keep the timestamps at or after the cutoff. -/
def selFrom {α : Type} (cutoff : ℤ) (g : List (ℤ × α)) : List (ℤ × α) :=
  g.filter (fun p => cutoff ≤ p.1)

/-- xarray combine_first on two time-indexed grids (fuel-driven merge of
the two sorted time axes; the fuel is an upper bound on the remaining
length and the instantiation below always supplies enough): the result
is indexed by the sorted union of the two time axes, and wherever both
grids carry a timestamp the values of the first (new) grid win. -/
def combineFirstFuel {α : Type} : ℕ → List (ℤ × α) → List (ℤ × α) → List (ℤ × α)
  | _, [], ps => ps
  | _, ns, [] => ns
  | 0, _ :: _, _ :: _ => []
  | fuel + 1, n :: ns, p :: ps =>
      if n.1 < p.1 then n :: combineFirstFuel fuel ns (p :: ps)
      else if p.1 < n.1 then p :: combineFirstFuel fuel (n :: ns) ps
      else n :: combineFirstFuel fuel ns ps

/-- xarray ds.combine_first(other) along the time axis. -/
def combineFirst {α : Type} (ns ps : List (ℤ × α)) : List (ℤ × α) :=
  combineFirstFuel (ns.length + ps.length) ns ps

/-- The merge step of main() (src/main.py lines 246-250): the prior grid
is restricted to timestamps at or after the cutoff and combined with the
new grid, new values taking precedence. -/
def mergeGrids {α : Type} (newG priorG : List (ℤ × α)) (cutoff : ℤ) : List (ℤ × α) :=
  combineFirst newG (selFrom cutoff priorG)

lemma combineFirstFuel_spec {α : Type} :
    ∀ (fuel : ℕ) (ns ps : List (ℤ × α)),
      ns.length + ps.length ≤ fuel → TimesSorted ns → TimesSorted ps →
      TimesSorted (combineFirstFuel fuel ns ps)
      ∧ (∀ x : ℤ × α, x ∈ combineFirstFuel fuel ns ps ↔
          x ∈ ns ∨ (x ∈ ps ∧ ∀ w, (x.1, w) ∉ ns)) := by
  intro fuel
  induction fuel with
  | zero =>
      intro ns ps hlen hn hp
      have hns : ns = [] := by
        cases ns with
        | nil => rfl
        | cons a l => simp at hlen
      subst hns
      simpa [combineFirstFuel] using hp
  | succ fuel ih =>
      intro ns ps hlen hn hp
      cases ns with
      | nil => simpa [combineFirstFuel] using hp
      | cons n ns =>
          cases ps with
          | nil =>
              refine ⟨by simpa [combineFirstFuel] using hn, ?_⟩
              intro x
              simp [combineFirstFuel]
          | cons p ps =>
              have hn' : TimesSorted ns := (List.pairwise_cons.mp hn).2
              have hp' : TimesSorted ps := (List.pairwise_cons.mp hp).2
              have hnall : ∀ x ∈ ns, n.1 < x.1 := fun x hx =>
                (List.pairwise_cons.mp hn).1 x hx
              have hpall : ∀ x ∈ ps, p.1 < x.1 := fun x hx =>
                (List.pairwise_cons.mp hp).1 x hx
              simp only [List.length_cons] at hlen
              rcases lt_trichotomy n.1 p.1 with hlt | heqk | hgt
              · -- the new head comes first
                obtain ⟨ihs, ihm⟩ := ih ns (p :: ps) (by simp; omega) hn' hp
                rw [combineFirstFuel, if_pos hlt]
                constructor
                · refine List.Pairwise.cons (fun x hx => ?_) ihs
                  rcases ((ihm x).mp hx) with hxn | ⟨hxp, -⟩
                  · exact hnall x hxn
                  · rcases List.mem_cons.mp hxp with rfl | hxps
                    · exact hlt
                    · exact hlt.trans (hpall x hxps)
                · intro x
                  rw [List.mem_cons, ihm x]
                  constructor
                  · rintro (rfl | hxn | ⟨hxp, hnot⟩)
                    · exact Or.inl (List.mem_cons_self _ _)
                    · exact Or.inl (List.mem_cons_of_mem _ hxn)
                    · refine Or.inr ⟨hxp, fun w hw => ?_⟩
                      rcases List.mem_cons.mp hw with hwn | hwns
                      · have hx1 : x.1 = n.1 := by rw [← hwn]
                        have hple : p.1 ≤ x.1 := by
                          rcases List.mem_cons.mp hxp with rfl | hxps
                          · exact le_refl _
                          · exact (hpall x hxps).le
                        omega
                      · exact hnot w hwns
                  · rintro (hxn | ⟨hxp, hnot⟩)
                    · rcases List.mem_cons.mp hxn with rfl | hxns
                      · exact Or.inl rfl
                      · exact Or.inr (Or.inl hxns)
                    · exact Or.inr (Or.inr ⟨hxp, fun w hw => hnot w (List.mem_cons_of_mem _ hw)⟩)
              · -- equal timestamps: the new head wins, the prior head is dropped
                obtain ⟨ihs, ihm⟩ := ih ns ps (by omega) hn' hp'
                rw [combineFirstFuel, if_neg (by omega), if_neg (by omega)]
                constructor
                · refine List.Pairwise.cons (fun x hx => ?_) ihs
                  rcases ((ihm x).mp hx) with hxn | ⟨hxp, -⟩
                  · exact hnall x hxn
                  · have := hpall x hxp
                    omega
                · intro x
                  rw [List.mem_cons, ihm x]
                  constructor
                  · rintro (rfl | hxn | ⟨hxp, hnot⟩)
                    · exact Or.inl (List.mem_cons_self _ _)
                    · exact Or.inl (List.mem_cons_of_mem _ hxn)
                    · refine Or.inr ⟨List.mem_cons_of_mem _ hxp, fun w hw => ?_⟩
                      rcases List.mem_cons.mp hw with hwn | hwns
                      · have hx1 : x.1 = n.1 := by rw [← hwn]
                        have := hpall x hxp
                        omega
                      · exact hnot w hwns
                  · rintro (hxn | ⟨hxp, hnot⟩)
                    · rcases List.mem_cons.mp hxn with rfl | hxns
                      · exact Or.inl rfl
                      · exact Or.inr (Or.inl hxns)
                    · rcases List.mem_cons.mp hxp with rfl | hxps
                      · exfalso
                        exact hnot n.2 (by simp [← heqk])
                      · exact Or.inr (Or.inr ⟨hxps, fun w hw => hnot w (List.mem_cons_of_mem _ hw)⟩)
              · -- the prior head comes first and is kept
                obtain ⟨ihs, ihm⟩ := ih (n :: ns) ps (by simp; omega) hn hp'
                rw [combineFirstFuel, if_neg (by omega), if_pos hgt]
                constructor
                · refine List.Pairwise.cons (fun x hx => ?_) ihs
                  rcases ((ihm x).mp hx) with hxn | ⟨hxp, -⟩
                  · rcases List.mem_cons.mp hxn with rfl | hxns
                    · exact hgt
                    · exact hgt.trans (hnall x hxns)
                  · exact hpall x hxp
                · intro x
                  rw [List.mem_cons, ihm x]
                  constructor
                  · rintro (rfl | hxn | ⟨hxp, hnot⟩)
                    · refine Or.inr ⟨List.mem_cons_self _ _, fun w hw => ?_⟩
                      rcases List.mem_cons.mp hw with hwn | hwns
                      · have hx1 : x.1 = n.1 := by rw [← hwn]
                        omega
                      · have := hnall (x.1, w) hwns
                        simp at this
                        omega
                    · exact Or.inl hxn
                    · exact Or.inr ⟨List.mem_cons_of_mem _ hxp, hnot⟩
                  · rintro (hxn | ⟨hxp, hnot⟩)
                    · exact Or.inr (Or.inl hxn)
                    · rcases List.mem_cons.mp hxp with rfl | hxps
                      · exact Or.inl rfl
                      · exact Or.inr (Or.inr ⟨hxps, hnot⟩)

lemma mem_selFrom {α : Type} (cutoff : ℤ) (g : List (ℤ × α)) (x : ℤ × α) :
    x ∈ selFrom cutoff g ↔ x ∈ g ∧ cutoff ≤ x.1 := by
  simp [selFrom]

lemma sorted_selFrom {α : Type} (cutoff : ℤ) (g : List (ℤ × α)) (hg : TimesSorted g) :
    TimesSorted (selFrom cutoff g) := List.Pairwise.filter _ hg

/-- C8 counterexample: the claim that for every cutoff the merged time
coordinate is the union of both inputs' timestamps at or after the
cutoff is false: only the prior grid is restricted to the cutoff, so a
new-grid timestamp below the cutoff (timestamp 0 with cutoff 5 here)
survives into the output. -/
theorem merge_union_claim_false :
    ¬ (∀ t : ℤ, (∃ v, (t, v) ∈ mergeGrids [((0 : ℤ), (0 : ℤ))] ([] : List (ℤ × ℤ)) 5)
        ↔ (5 ≤ t ∧ ((∃ v, (t, v) ∈ [((0 : ℤ), (0 : ℤ))])
            ∨ ∃ v, (t, v) ∈ ([] : List (ℤ × ℤ))))) := by
  intro hcl
  have h0 : ((0 : ℤ), (0 : ℤ)) ∈ mergeGrids [((0 : ℤ), (0 : ℤ))] ([] : List (ℤ × ℤ)) 5 := by
    simp [mergeGrids, selFrom, combineFirst, combineFirstFuel]
  have := ((hcl 0).mp ⟨0, h0⟩).1
  omega

/-- C8 (amended): for sorted inputs, the merged grid is sorted with no
duplicate timestamps, and a pair belongs to it exactly when it belongs
to the new grid, or it belongs to the prior grid at a timestamp that is
at or after the cutoff and absent from the new grid; hence the output
time coordinate is the union of the new grid's timestamps with the prior
grid's timestamps at or after the cutoff (which is the union of both
inputs' timestamps at or after the cutoff whenever every new-grid
timestamp is at or after the cutoff), and new values take precedence. -/
theorem merge_characterization {α : Type} (newG priorG : List (ℤ × α)) (cutoff : ℤ)
    (hn : TimesSorted newG) (hp : TimesSorted priorG) :
    TimesSorted (mergeGrids newG priorG cutoff)
    ∧ (∀ x : ℤ × α, x ∈ mergeGrids newG priorG cutoff ↔
        x ∈ newG ∨ (x ∈ priorG ∧ cutoff ≤ x.1 ∧ ∀ w, (x.1, w) ∉ newG)) := by
  obtain ⟨hs, hm⟩ := combineFirstFuel_spec (newG.length + (selFrom cutoff priorG).length)
    newG (selFrom cutoff priorG) le_rfl hn (sorted_selFrom cutoff priorG hp)
  refine ⟨hs, fun x => ?_⟩
  rw [mergeGrids, combineFirst, hm x, mem_selFrom]
  tauto

/-- Witness for C8 at concrete sorted grids: the merged grid of
new = [(0, 10), (1, 11)] and prior = [(-1, 5), (0, 99), (2, 7)] with
cutoff -1 is sorted with strictly increasing timestamps. -/
theorem merge_characterization_witness :
    TimesSorted (mergeGrids [((0 : ℤ), (10 : ℤ)), (1, 11)]
      [((-1 : ℤ), (5 : ℤ)), (0, 99), (2, 7)] (-1)) :=
  (merge_characterization [((0 : ℤ), (10 : ℤ)), (1, 11)]
    [((-1 : ℤ), (5 : ℤ)), (0, 99), (2, 7)] (-1)
    (by norm_num) (by norm_num)).1

/-- src/main.py line 287: forecast_start = ds.time[0] of the grid the
encoder runs on (the merged grid). -/
def forecast_start {α : Type} (g : List (ℤ × α)) : Option ℤ := g.head?.map Prod.fst

/-- src/main.py lines 263-275: time_offset = ds.time - ds.time[0],
converted to whole hours (the model keeps times in a single integer
unit, so the rounded conversion is the plain difference). -/
def time_offsets {α : Type} (g : List (ℤ × α)) : List ℤ :=
  match g.head? with
  | none => []
  | some p => g.map (fun q => q.1 - p.1)

/-- C10: the encoder and the upload builder both run on the merged grid,
so the zero reference t0 of the encoded hour offsets and the
forecastStart field written into every uploaded document are the same
timestamp: the first (i.e. smallest) timestamp of the merged grid. It
bounds every retained prior timestamp at or after the cutoff from below,
and whenever some retained prior timestamp precedes the new grid's first
timestamp, t0 is strictly earlier than the new grid's first timestamp. -/
theorem forecast_start_is_merged_head {α : Type} (newG priorG : List (ℤ × α))
    (cutoff : ℤ) (hn : TimesSorted newG) (hp : TimesSorted priorG)
    (t0 : ℤ) (ht0 : forecast_start (mergeGrids newG priorG cutoff) = some t0) :
    time_offsets (mergeGrids newG priorG cutoff)
        = (mergeGrids newG priorG cutoff).map (fun q => q.1 - t0)
    ∧ (∃ v, (t0, v) ∈ mergeGrids newG priorG cutoff)
    ∧ (∀ t v, (t, v) ∈ mergeGrids newG priorG cutoff → t0 ≤ t)
    ∧ (∀ t v, (t, v) ∈ priorG → cutoff ≤ t → t0 ≤ t)
    ∧ (∀ t v, (t, v) ∈ newG → t0 ≤ t)
    ∧ (∀ pt pv nt nv, (pt, pv) ∈ priorG → cutoff ≤ pt →
        newG.head? = some (nt, nv) → pt < nt → t0 < nt) := by
  obtain ⟨hs, hm⟩ := merge_characterization newG priorG cutoff hn hp
  obtain ⟨m0, rest, hme⟩ : ∃ m0 rest, mergeGrids newG priorG cutoff = m0 :: rest := by
    cases hg : mergeGrids newG priorG cutoff with
    | nil => rw [hg] at ht0; exact absurd ht0 (by simp [forecast_start])
    | cons m0 rest => exact ⟨m0, rest, rfl⟩
  have hm01 : m0.1 = t0 := by
    rw [hme] at ht0
    simpa [forecast_start] using ht0
  have hmin : ∀ t v, (t, v) ∈ mergeGrids newG priorG cutoff → t0 ≤ t := by
    intro t v htv
    rw [hme] at htv
    rcases List.mem_cons.mp htv with rfl | hrest
    · exact le_of_eq hm01.symm
    · rw [hme] at hs
      have := (List.pairwise_cons.mp hs).1 (t, v) hrest
      simp at this
      omega
  have hmemN : ∀ t v, (t, v) ∈ newG → t0 ≤ t := by
    intro t v htv
    exact hmin t v ((hm (t, v)).mpr (Or.inl htv))
  have hmemP : ∀ t v, (t, v) ∈ priorG → cutoff ≤ t → t0 ≤ t := by
    intro t v htv hct
    by_cases hex : ∃ w, (t, w) ∈ newG
    · obtain ⟨w, hw⟩ := hex
      exact hmemN t w hw
    · push_neg at hex
      exact hmin t v ((hm (t, v)).mpr (Or.inr ⟨htv, hct, fun w => hex w⟩))
  refine ⟨?_, ?_, hmin, hmemP, hmemN, ?_⟩
  · rw [hme, time_offsets]
    simp [hm01]
  · exact ⟨m0.2, by rw [hme]; simp [← hm01]⟩
  · intro pt pv nt nv hpt hct hhd hlt
    have := hmemP pt pv hpt hct
    omega

/-- Witness for C10: with new grid [(0, 0)], prior grid [(-1, 1)] and
cutoff -1, the merged grid's minimality conjunct instantiated at its
retained prior timestamp -1 gives -1 <= 0; the reference timestamp is
the retained prior timestamp -1, not the new grid's first timestamp 0. -/
theorem forecast_start_is_merged_head_witness :
    time_offsets (mergeGrids [((0 : ℤ), (0 : ℤ))] [((-1 : ℤ), (1 : ℤ))] (-1))
      = (mergeGrids [((0 : ℤ), (0 : ℤ))] [((-1 : ℤ), (1 : ℤ))] (-1)).map
          (fun q => q.1 - (-1)) :=
  (forecast_start_is_merged_head [((0 : ℤ), (0 : ℤ))] [((-1 : ℤ), (1 : ℤ))] (-1)
    (by norm_num) (by norm_num) (-1)
    (by norm_num [forecast_start, mergeGrids, selFrom, combineFirst, combineFirstFuel])).1
